import Mathlib

/-!
Verification of the OpenWork agent tool-orchestration runtime.

JavaScript strings are embedded as `List Char`; the string operations the
source uses (`slice`, `indexOf`, `split`, `join`, `startsWith`, `includes`,
`toLowerCase`, `trim`) are given as executable functions with the same
semantics on that representation.
-/

/-- JS `str.split(c)` for a single-character separator: always returns at
least one (possibly empty) piece. -/
def splitOnChar (c : Char) : List Char → List (List Char)
  | [] => [[]]
  | a :: as =>
    match splitOnChar c as with
    | [] => [[]]
    | h :: t => if a = c then [] :: h :: t else (a :: h) :: t

/-- JS `arr.join(c)` for a single-character separator. -/
def joinWith (c : Char) : List (List Char) → List Char
  | [] => []
  | [x] => x
  | x :: y :: rest => x ++ c :: joinWith c (y :: rest)

/-- JS `str.indexOf(c)` for a single character, `none` standing for `-1`. -/
def firstIdxOf (c : Char) : List Char → Option Nat
  | [] => none
  | a :: as => if a = c then some 0 else (firstIdxOf c as).map (· + 1)

/-- JS `str.toLowerCase()` (ASCII case mapping). -/
def jsToLower (l : List Char) : List Char := l.map Char.toLower

/-- JS `str.trim()`: strip leading and trailing whitespace. -/
def jsTrim (l : List Char) : List Char :=
  ((l.dropWhile Char.isWhitespace).reverse.dropWhile Char.isWhitespace).reverse

theorem splitOnChar_ne_nil (c : Char) (l : List Char) : splitOnChar c l ≠ [] := by
  cases l with
  | nil => simp [splitOnChar]
  | cons a as =>
    simp only [splitOnChar]
    cases splitOnChar c as with
    | nil => simp
    | cons h t =>
      by_cases hac : a = c <;> simp [hac]

theorem joinWith_splitOnChar (c : Char) (l : List Char) :
    joinWith c (splitOnChar c l) = l := by
  induction l with
  | nil => simp [splitOnChar, joinWith]
  | cons a as ih =>
    simp only [splitOnChar]
    cases hs : splitOnChar c as with
    | nil => exact absurd hs (splitOnChar_ne_nil c as)
    | cons h t =>
      rw [hs] at ih
      by_cases hac : a = c
      · subst hac
        cases t with
        | nil => simpa [joinWith] using ih
        | cons t0 ts => simpa [joinWith] using ih
      · cases t with
        | nil => simpa [hac, joinWith] using ih
        | cons t0 ts => simpa [hac, joinWith] using ih

theorem splitOnChar_append_of_not_mem (c : Char) (s t : List Char) (hs : c ∉ s) :
    splitOnChar c (s ++ c :: t) = s :: splitOnChar c t := by
  induction s with
  | nil =>
    simp only [List.nil_append, splitOnChar]
    cases h : splitOnChar c t with
    | nil => exact absurd h (splitOnChar_ne_nil c t)
    | cons h0 t0 => simp
  | cons a as ih =>
    have ha : a ≠ c := fun h => hs (by simp [h])
    have has : c ∉ as := fun h => hs (by simp [h])
    rw [List.cons_append]
    simp only [splitOnChar]
    rw [ih has]
    simp [ha]

theorem firstIdxOf_append_of_not_mem (c : Char) (s t : List Char) (hs : c ∉ s) :
    firstIdxOf c (s ++ c :: t) = some s.length := by
  induction s with
  | nil => simp [firstIdxOf]
  | cons a as ih =>
    have ha : a ≠ c := fun h => hs (by simp [h])
    have has : c ∉ as := fun h => hs (by simp [h])
    simp [firstIdxOf, ha, ih has]

theorem firstIdxOf_eq_none_iff (c : Char) (l : List Char) :
    firstIdxOf c l = none ↔ c ∉ l := by
  induction l with
  | nil => simp [firstIdxOf]
  | cons a as ih =>
    by_cases hac : a = c
    · simp [firstIdxOf, hac]
    · simp only [firstIdxOf, hac, if_false, List.mem_cons]
      cases h : firstIdxOf c as with
      | none =>
        rw [h] at ih
        simp only [Option.map_none']
        constructor
        · intro _ hmem
          rcases hmem with h1 | h1
          · exact hac h1.symm
          · exact (ih.mp rfl) h1
        · intro _; trivial
      | some i =>
        rw [h] at ih
        simp only [Option.map_some']
        constructor
        · intro hcon; exact absurd hcon (by simp)
        · intro hmem
          exfalso
          have : ¬ c ∉ as := fun hn => by simp_all
          push_neg at this
          have := hmem (Or.inr this)
          simp_all

theorem isPrefixOf_append (p x : List Char) : p.isPrefixOf (p ++ x) = true := by
  induction p with
  | nil => simp [List.isPrefixOf]
  | cons a as ih => simp [List.isPrefixOf, ih]

theorem takeWhile_ne_decomp (c : Char) (s : List Char) (h : c ∈ s) :
    ∃ rest, s = s.takeWhile (· ≠ c) ++ c :: rest ∧ c ∉ s.takeWhile (· ≠ c) := by
  induction s with
  | nil => simp at h
  | cons a as ih =>
    by_cases hac : a = c
    · subst hac
      refine ⟨as, ?_, ?_⟩ <;> simp [List.takeWhile_cons]
    · have has : c ∈ as := by
        rcases List.mem_cons.mp h with h1 | h1
        · exact absurd h1.symm hac
        · exact h1
      obtain ⟨rest, hdec, hnm⟩ := ih has
      refine ⟨rest, ?_, ?_⟩
      · simpa [List.takeWhile_cons, hac] using congrArg (a :: ·) hdec
      · intro hmem
        simp only [List.takeWhile_cons, decide_eq_true_eq, hac] at hmem
        rw [if_pos (by exact hac)] at hmem
        rcases List.mem_cons.mp hmem with h1 | h1
        · exact hac h1.symm
        · exact hnm h1

theorem takeWhile_ne_self (c : Char) (s : List Char) (h : c ∈ s) :
    s.takeWhile (· ≠ c) ≠ s := by
  obtain ⟨rest, hdec, _⟩ := takeWhile_ne_decomp c s h
  intro heq
  have hlen := congrArg List.length hdec
  rw [heq] at hlen
  simp at hlen

/-!
## MCP tool-id namespacing (src/packages/openwork/src/mcp/converter.ts)
-/

/-- `getMCPToolId` (converter.ts:117-120): `` `mcp_${serverId}_${toolName}` ``. -/
def getMCPToolId (serverId toolName : List Char) : List Char :=
  "mcp_".data ++ serverId ++ '_' :: toolName

/-- `parseMCPToolId` (converter.ts:125-139): strip the `mcp_` marker, split the
remainder on `_`; fewer than two pieces is a malformed id; the first piece is
the server id and the remaining pieces re-joined with `_` are the tool name. -/
def parseMCPToolId (toolId : List Char) : Option (List Char × List Char) :=
  if ("mcp_".data).isPrefixOf toolId then
    match splitOnChar '_' (toolId.drop 4) with
    | p0 :: p1 :: rest => some (p0, joinWith '_' (p1 :: rest))
    | _ => none
  else none

/-- The tool-id parsing inlined in `MCPManager.callTool` (manager.ts:198-211):
check the `mcp_` marker, then cut at the FIRST `_` of the remainder
(`indexOf`/`slice`), with the manager's two distinct failure messages. -/
def parseToolIdE (toolId : List Char) : Except String (List Char × List Char) :=
  if ("mcp_".data).isPrefixOf toolId then
    match firstIdxOf '_' (toolId.drop 4) with
    | none => Except.error "Invalid MCP tool ID format"
    | some i => Except.ok ((toolId.drop 4).take i, (toolId.drop 4).drop (i + 1))
  else Except.error "Invalid MCP tool ID"

theorem mcp_marker_isPrefixOf (x : List Char) :
    ("mcp_".data).isPrefixOf ("mcp_".data ++ x) = true :=
  isPrefixOf_append _ x

theorem mcp_marker_drop (x : List Char) : ("mcp_".data ++ x).drop 4 = x := rfl

theorem parseMCPToolId_getMCPToolId (s t : List Char) (hs : '_' ∉ s) :
    parseMCPToolId (getMCPToolId s t) = some (s, t) := by
  have hassoc : getMCPToolId s t = "mcp_".data ++ (s ++ '_' :: t) := by
    simp [getMCPToolId]
  rw [parseMCPToolId, hassoc, mcp_marker_isPrefixOf, if_pos rfl, mcp_marker_drop,
    splitOnChar_append_of_not_mem '_' s t hs]
  cases h : splitOnChar '_' t with
  | nil => exact absurd h (splitOnChar_ne_nil '_' t)
  | cons h0 t0 =>
    have hj : joinWith '_' (h0 :: t0) = t := by
      rw [← h]; exact joinWith_splitOnChar '_' t
    simp [hj]

theorem parseToolIdE_getMCPToolId (s t : List Char) (hs : '_' ∉ s) :
    parseToolIdE (getMCPToolId s t) = Except.ok (s, t) := by
  have hassoc : getMCPToolId s t = "mcp_".data ++ (s ++ '_' :: t) := by
    simp [getMCPToolId]
  rw [parseToolIdE, hassoc, mcp_marker_isPrefixOf, if_pos rfl, mcp_marker_drop,
    firstIdxOf_append_of_not_mem '_' s t hs]
  have htake : (s ++ '_' :: t).take s.length = s := List.take_left s ('_' :: t)
  have hdrop : (s ++ '_' :: t).drop (s.length + 1) = t := by
    have : s ++ '_' :: t = (s ++ ['_']) ++ t := by simp
    rw [this]
    have hlen : (s ++ ['_']).length = s.length + 1 := by simp
    rw [← hlen]
    exact List.drop_left (s ++ ['_']) t
  simp [htake, hdrop]

theorem parse_getMCPToolId_underscore (s t : List Char) (hs : '_' ∈ s) :
    ∃ rest0, s = s.takeWhile (· ≠ '_') ++ '_' :: rest0 ∧
      parseMCPToolId (getMCPToolId s t)
        = some (s.takeWhile (· ≠ '_'), rest0 ++ '_' :: t) ∧
      parseToolIdE (getMCPToolId s t)
        = Except.ok (s.takeWhile (· ≠ '_'), rest0 ++ '_' :: t) := by
  obtain ⟨rest0, hdec, hnm⟩ := takeWhile_ne_decomp '_' s hs
  refine ⟨rest0, hdec, ?_, ?_⟩
  · have h1 : getMCPToolId s t
        = getMCPToolId (s.takeWhile (· ≠ '_')) (rest0 ++ '_' :: t) := by
      rw [getMCPToolId, getMCPToolId]
      conv_lhs => rw [hdec]
      simp
    rw [h1, parseMCPToolId_getMCPToolId _ _ hnm]
  · have h1 : getMCPToolId s t
        = getMCPToolId (s.takeWhile (· ≠ '_')) (rest0 ++ '_' :: t) := by
      rw [getMCPToolId, getMCPToolId]
      conv_lhs => rw [hdec]
      simp
    rw [h1, parseToolIdE_getMCPToolId _ _ hnm]

/-!
## MCP client connection state machine (src/.../mcp/client.ts)

The client wraps one transport. Its externally observable fields are the
connection status, the last error message, the discovered tool list and the
connected-at timestamp (client.ts:20-23). Tool discovery results are modelled
by their names; descriptions and input schemas do not affect the state machine.
-/

/-- `MCPConnectionStatus` (mcp/types.ts). -/
inductive MCPConnectionStatus where
  | disconnected
  | connecting
  | connected
  | error
deriving DecidableEq, Repr

/-- Observable state of one `MCPClient` plus the configuration it was built
from (`id`, `enabled`; transport parameters are irrelevant to the claims). -/
structure MCPClientState where
  configId : List Char
  enabled : Bool
  status : MCPConnectionStatus
  errMsg : Option String
  tools : List (List Char)
  connectedAt : Option Nat
deriving DecidableEq, Repr

/-- Combined outcome of the transport round trips attempted inside
`MCPClient.connect` (client.ts:84-111): the transport connect can throw, tool
discovery (`listTools`) can throw, or discovery succeeds with a tool list. -/
inductive ConnectOutcome where
  | transportFail (msg : String)
  | discoverFail (msg : String)
  | ok (tools : List (List Char))
deriving DecidableEq, Repr

/-- What one call to `MCPClient.connect` did: the state afterwards, whether a
transport connection was attempted, whether a discovery round trip was
attempted, and the error it re-threw, if any. -/
structure ConnectResult where
  state : MCPClientState
  transportAttempted : Bool
  discoveryAttempted : Bool
  thrown : Option String
deriving DecidableEq, Repr

namespace MCPClient

/-- `MCPClient.connect` (client.ts:76-112). Already `connected` or
`connecting`: return immediately (no transport, no discovery, nothing
changed). Otherwise mark `connecting`, clear the error, build and connect the
transport and discover tools; on success store the tools, mark `connected`
and stamp `connectedAt := now`; any throw is caught, recorded as
`status := error` with its message, and re-thrown. -/
def connect (s : MCPClientState) (outcome : ConnectOutcome) (now : Nat) :
    ConnectResult :=
  if s.status = .connected ∨ s.status = .connecting then
    ⟨s, false, false, none⟩
  else
    match outcome with
    | .transportFail m =>
        ⟨⟨s.configId, s.enabled, .error, some m, s.tools, s.connectedAt⟩,
          true, false, some m⟩
    | .discoverFail m =>
        ⟨⟨s.configId, s.enabled, .error, some m, s.tools, s.connectedAt⟩,
          true, true, some m⟩
    | .ok tools =>
        ⟨⟨s.configId, s.enabled, .connected, none, tools, some now⟩,
          true, true, none⟩

end MCPClient

/-!
## MCP connection pool manager (src/.../mcp/manager.ts)

`MCPManager` owns `clients : Map<string, MCPClient>`; the map is embedded as
an association list in insertion order (`Map.set` on a fresh key appends,
on an existing key replaces in place; `Map.get` finds the unique entry).
-/

/-- The manager's `clients` map. -/
abbrev ManagerState := List (List Char × MCPClientState)

/-- `Map.get`: first (unique) entry with the given key. -/
def findClient : ManagerState → List Char → Option MCPClientState
  | [], _ => none
  | (k, c) :: rest, id => if k = id then some c else findClient rest id

/-- `Map.set`: replace in place, or append a fresh key. -/
def setClient : ManagerState → List Char → MCPClientState → ManagerState
  | [], id, c => [(id, c)]
  | (k, c0) :: rest, id, c =>
    if k = id then (id, c) :: rest else (k, c0) :: setClient rest id c

namespace MCPManager

/-- `MCPManager.hasServer` (manager.ts:228-230). -/
def hasServer (m : ManagerState) (serverId : List Char) : Bool :=
  (findClient m serverId).isSome

/-- `convertMCPTools` (converter.ts:144-156): one catalog entry per
discovered tool, keyed by the namespaced id. The entry's payload records
which server and tool the generated CoreTool closure targets. -/
def convertMCPTools (c : MCPClientState) : List (List Char × (List Char × List Char)) :=
  c.tools.map fun t => (getMCPToolId c.configId t, (c.configId, t))

/-- `MCPManager.getAllTools` (manager.ts:136-151): walk every client in
insertion order, skip any whose status is not `connected`, and add the
converted entries of the rest. (On a duplicate key `Map.set` keeps one entry;
which keys exist is unaffected.) -/
def getAllTools (m : ManagerState) : List (List Char × (List Char × List Char)) :=
  ((m.map Prod.snd).filter (fun c => c.status = .connected)).flatMap convertMCPTools

/-- Result of `MCPManager.callTool` (manager.ts:194-223): either the
structured `{success:false, error}` value returned before any transport use,
or delegation to the addressed client's `callTool`. -/
inductive CallToolOutcome where
  | failure (error : String)
  | forwarded (serverId toolName : List Char)
deriving DecidableEq, Repr

/-- `MCPManager.callTool` (manager.ts:194-223): parse the namespaced id (bad
marker or no separator is a structured failure), look the server up (unknown
server is a failure), require status `connected` (otherwise a failure), and
only then forward to the client. The argument bag plays no role in the
dispatch decision. -/
def callTool (m : ManagerState) (toolId : List Char) : CallToolOutcome :=
  match parseToolIdE toolId with
  | .error e => .failure e
  | .ok (serverId, toolName) =>
    match findClient m serverId with
    | none => .failure ("Server " ++ String.mk serverId ++ " not found")
    | some c =>
      if c.status ≠ .connected then
        .failure ("Server " ++ String.mk serverId ++ " is not connected")
      else
        .forwarded serverId toolName

/-- A fresh `MCPClient` as built by `new MCPClient(config)`
(client.ts:20-36). -/
def newClient (id : List Char) (enabled : Bool) : MCPClientState :=
  ⟨id, enabled, .disconnected, none, [], none⟩

/-- Result of `MCPManager.addServer`: the manager's map afterwards and the
error the call threw, if any. -/
structure AddServerResult where
  state : ManagerState
  thrown : Option String
deriving DecidableEq, Repr

/-- `MCPManager.addServer` (manager.ts:20-31): duplicate ids throw without
touching the map; otherwise the new client is registered FIRST, and only then
(`autoConnect && config.enabled`) `connectServer` → `client.connect()` runs,
whose failure propagates out of `addServer` while the registration stays. -/
def addServer (m : ManagerState) (id : List Char) (enabled : Bool)
    (autoConnect : Bool) (outcome : ConnectOutcome) (now : Nat) :
    AddServerResult :=
  if (findClient m id).isSome then
    ⟨m, some ("Server with ID " ++ String.mk id ++ " already exists")⟩
  else
    let m1 := setClient m id (newClient id enabled)
    if autoConnect && enabled then
      let r := MCPClient.connect (newClient id enabled) outcome now
      ⟨setClient m1 id r.state, r.thrown⟩
    else
      ⟨m1, none⟩

end MCPManager

theorem findClient_setClient (m : ManagerState) (id : List Char)
    (c : MCPClientState) : findClient (setClient m id c) id = some c := by
  induction m with
  | nil => simp [setClient, findClient]
  | cons e rest ih =>
    obtain ⟨k, c0⟩ := e
    by_cases hk : k = id
    · simp [setClient, findClient, hk]
    · simp [setClient, findClient, hk, ih]

/-!
## Claim theorems for the MCP pool (C2, C3, C6, C9, C10)
-/

/-- C6: for every connection whose status is `connected` or `connecting`,
calling `connect()` again is a no-op — no transport connection is made, no
capability-discovery round trip happens, nothing is thrown, and the status,
discovered tool list and connected-at timestamp are all left unchanged
(client.ts:77-79). -/
theorem connect_idempotent_noop (s : MCPClientState) (outcome : ConnectOutcome)
    (now : Nat) (h : s.status = .connected ∨ s.status = .connecting) :
    MCPClient.connect s outcome now = ⟨s, false, false, none⟩ := by
  rw [MCPClient.connect.eq_def, if_pos h]

theorem connect_idempotent_noop_witness :
    MCPClient.connect ⟨"a".data, true, .connected, none, ["t".data], some 5⟩
        (.ok ["u".data]) 9
      = ⟨⟨"a".data, true, .connected, none, ["t".data], some 5⟩,
          false, false, none⟩ :=
  connect_idempotent_noop _ _ _ (Or.inl rfl)

/-- C10: `addServer(config, autoConnect := true)` on a fresh id with an
enabled config registers the client in the map BEFORE connecting, so when the
connection attempt fails the call throws the connect error while the server
stays registered (`hasServer` is true) with the connection left in status
`error`; the pool is not rolled back (manager.ts:20-31, client.ts:107-111). -/
theorem addServer_keeps_registration_on_connect_failure
    (m : ManagerState) (id : List Char) (outcome : ConnectOutcome)
    (now : Nat) (msg : String)
    (hfresh : findClient m id = none)
    (hfail : outcome = .transportFail msg ∨ outcome = .discoverFail msg) :
    (MCPManager.addServer m id true true outcome now).thrown = some msg ∧
    MCPManager.hasServer (MCPManager.addServer m id true true outcome now).state id
      = true ∧
    ∃ c, findClient (MCPManager.addServer m id true true outcome now).state id
        = some c ∧ c.status = .error := by
  rcases hfail with h | h <;>
  · subst h
    refine ⟨?_, ?_, ⟨⟨id, true, .error, some msg, [], none⟩, ?_, rfl⟩⟩ <;>
      simp [MCPManager.addServer, hfresh, MCPManager.newClient,
        MCPClient.connect, MCPManager.hasServer, findClient_setClient]

theorem addServer_keeps_registration_on_connect_failure_witness :
    (MCPManager.addServer [] "a".data true true (.transportFail "refused") 3).thrown
        = some "refused" ∧
    MCPManager.hasServer
        (MCPManager.addServer [] "a".data true true (.transportFail "refused") 3).state
        "a".data = true ∧
    ∃ c, findClient
        (MCPManager.addServer [] "a".data true true (.transportFail "refused") 3).state
        "a".data = some c ∧ c.status = .error :=
  addServer_keeps_registration_on_connect_failure [] "a".data _ 3 "refused"
    rfl (Or.inl rfl)

/-- C2: `MCPManager.callTool` settles every dispatch by returning a
structured result, never by throwing: an identifier without the
`mcp_<serverId>_<toolName>` shape yields an invalid-id failure, a parsed
server id that is not registered yields a not-found failure, and a registered
server whose status is not `connected` yields a not-connected failure; in all
failure cases the outcome is not a forward to the client, so no transport
invoke is attempted (manager.ts:194-223). -/
theorem callTool_dispatch_failures (m : ManagerState) (toolId : List Char) :
    (¬ ("mcp_".data <+: toolId) →
      MCPManager.callTool m toolId = .failure "Invalid MCP tool ID") ∧
    (("mcp_".data <+: toolId) → '_' ∉ toolId.drop 4 →
      MCPManager.callTool m toolId = .failure "Invalid MCP tool ID format") ∧
    (∀ sid tn, parseToolIdE toolId = Except.ok (sid, tn) →
      findClient m sid = none →
      MCPManager.callTool m toolId
        = .failure ("Server " ++ String.mk sid ++ " not found")) ∧
    (∀ sid tn c, parseToolIdE toolId = Except.ok (sid, tn) →
      findClient m sid = some c → c.status ≠ .connected →
      MCPManager.callTool m toolId
        = .failure ("Server " ++ String.mk sid ++ " is not connected")) ∧
    (∀ e sid tn, MCPManager.callTool m toolId = .failure e →
      MCPManager.callTool m toolId ≠ .forwarded sid tn) := by
  refine ⟨?_, ?_, ?_, ?_, ?_⟩
  · intro hnp
    have hb : ("mcp_".data).isPrefixOf toolId = false := by
      rw [← Bool.not_eq_true]
      intro hc
      exact hnp (List.isPrefixOf_iff_prefix.mp hc)
    simp [MCPManager.callTool, parseToolIdE, hb]
  · intro hp hno
    have hb : ("mcp_".data).isPrefixOf toolId = true :=
      List.isPrefixOf_iff_prefix.mpr hp
    have hidx : firstIdxOf '_' (toolId.drop 4) = none :=
      (firstIdxOf_eq_none_iff '_' (toolId.drop 4)).mpr hno
    simp [MCPManager.callTool, parseToolIdE, hb, hidx]
  · intro sid tn hparse hnone
    simp [MCPManager.callTool, hparse, hnone]
  · intro sid tn c hparse hsome hstat
    simp [MCPManager.callTool, hparse, hsome, hstat]
  · intro e sid tn hfail hfwd
    rw [hfail] at hfwd
    exact MCPManager.CallToolOutcome.noConfusion hfwd

theorem callTool_dispatch_failures_witness :
    MCPManager.callTool [] "oops".data = .failure "Invalid MCP tool ID" ∧
    MCPManager.callTool [] "mcp_noseparator".data
      = .failure "Invalid MCP tool ID format" ∧
    MCPManager.callTool [] "mcp_a_t".data
      = .failure ("Server " ++ String.mk "a".data ++ " not found") ∧
    MCPManager.callTool
        [("a".data, ⟨"a".data, true, .disconnected, none, [], none⟩)]
        "mcp_a_t".data
      = .failure ("Server " ++ String.mk "a".data ++ " is not connected") :=
  ⟨(callTool_dispatch_failures [] "oops".data).1 (by decide),
   (callTool_dispatch_failures [] "mcp_noseparator".data).2.1
     (by decide) (by decide),
   (callTool_dispatch_failures [] "mcp_a_t".data).2.2.1 "a".data "t".data
     rfl rfl,
   (callTool_dispatch_failures
       [("a".data, ⟨"a".data, true, .disconnected, none, [], none⟩)]
       "mcp_a_t".data).2.2.2.1 "a".data "t".data
       ⟨"a".data, true, .disconnected, none, [], none⟩
     rfl (by decide) (by decide)⟩

/-- C3: the assembled catalog key set of `getAllTools` is exactly the set of
namespaced ids `mcp_<serverId>_<toolName>` of the tools of servers whose
status is `connected`; servers in any other status (`disconnected`,
`connecting`, `error` — including those whose discovery failed) contribute
no catalog entries (manager.ts:136-151, converter.ts:144-156). -/
theorem getAllTools_exactly_connected (m : ManagerState) (k : List Char) :
    k ∈ (MCPManager.getAllTools m).map Prod.fst ↔
      ∃ c ∈ m.map Prod.snd, c.status = MCPConnectionStatus.connected ∧
        ∃ t ∈ c.tools, k = getMCPToolId c.configId t := by
  simp only [MCPManager.getAllTools, MCPManager.convertMCPTools, List.map_flatMap,
    List.mem_flatMap, List.mem_filter, List.mem_map, decide_eq_true_eq]
  constructor
  · rintro ⟨c, ⟨⟨e, he, rfl⟩, hconn⟩, hk⟩
    obtain ⟨t, ht, hkt⟩ := List.mem_map.mp (by simpa using hk)
    exact ⟨e.2, ⟨e, he, rfl⟩, hconn, t, ht, hkt.symm⟩
  · rintro ⟨c, ⟨e, he, rfl⟩, hconn, t, ht, rfl⟩
    refine ⟨e.2, ⟨⟨e, he, rfl⟩, hconn⟩, ?_⟩
    simpa using List.mem_map.mpr ⟨t, ht, rfl⟩

/-- C9: for a server id containing no underscore, the namespaced id
round-trips through both parsers — `parseMCPToolId` (converter.ts:125-139)
and the parsing inside `MCPManager.callTool` (manager.ts:198-211) both
recover exactly the original server id and tool name; for a server id that
does contain an underscore, both parsers cut at the first underscore and
return a truncated server id different from the original, so dispatch would
resolve the wrong server. -/
theorem toolId_roundtrip (s t : List Char) :
    ('_' ∉ s →
      parseMCPToolId (getMCPToolId s t) = some (s, t) ∧
      parseToolIdE (getMCPToolId s t) = Except.ok (s, t)) ∧
    ('_' ∈ s →
      ∃ sid tn, parseMCPToolId (getMCPToolId s t) = some (sid, tn) ∧
        parseToolIdE (getMCPToolId s t) = Except.ok (sid, tn) ∧
        sid = s.takeWhile (· ≠ '_') ∧ sid ≠ s) := by
  constructor
  · intro hs
    exact ⟨parseMCPToolId_getMCPToolId s t hs, parseToolIdE_getMCPToolId s t hs⟩
  · intro hs
    obtain ⟨rest0, _, hp, he⟩ := parse_getMCPToolId_underscore s t hs
    exact ⟨s.takeWhile (· ≠ '_'), rest0 ++ '_' :: t, hp, he, rfl,
      takeWhile_ne_self '_' s hs⟩

theorem toolId_roundtrip_witness :
    (parseMCPToolId (getMCPToolId "srv".data "do_it".data)
        = some ("srv".data, "do_it".data) ∧
      parseToolIdE (getMCPToolId "srv".data "do_it".data)
        = Except.ok ("srv".data, "do_it".data)) ∧
    (∃ sid tn, parseMCPToolId (getMCPToolId "a_b".data "t".data)
        = some (sid, tn) ∧
      parseToolIdE (getMCPToolId "a_b".data "t".data) = Except.ok (sid, tn) ∧
      sid = ("a_b".data).takeWhile (· ≠ '_') ∧ sid ≠ "a_b".data) :=
  ⟨(toolId_roundtrip "srv".data "do_it".data).1 (by decide),
   (toolId_roundtrip "a_b".data "t".data).2 (by decide)⟩

/-!
## Skills (src/.../skills/types.ts, discovery.ts, loader.ts) and the
executor's prompt assembly (src/.../agent/executor.ts)
-/

/-- `Skill` (skills/types.ts). -/
structure Skill where
  id : String
  name : String
  description : Option String
  triggers : List String
  content : String
  path : String
  author : Option String
  version : Option String
  tags : List String
deriving DecidableEq, Repr

/-- One trigger test from `SkillDiscoveryService.matchTriggers`
(discovery.ts:143-153): a trigger that starts with the `/` marker matches iff
the lowercased trigger is a leading segment of the (normalised) input; any
other trigger matches iff it occurs as a substring. -/
def triggerMatches (lowerInput : List Char) (trigger : String) : Bool :=
  let lowerTrigger := jsToLower trigger.data
  if ("/".data).isPrefixOf trigger.data then
    lowerTrigger.isPrefixOf lowerInput
  else
    decide (lowerTrigger <:+: lowerInput)

/-- `SkillDiscoveryService.matchTriggers` (discovery.ts:139-155): the input is
lowercased AND trimmed (`input.toLowerCase().trim()`), then the skills with at
least one matching trigger are kept by `filter` (input order preserved). -/
def matchTriggers (input : String) (skills : List Skill) : List Skill :=
  let lowerInput := jsTrim (jsToLower input.data)
  skills.filter fun skill => skill.triggers.any (triggerMatches lowerInput)

/-- Modelled from the spec: the matching rule exactly as §4.5 words it, for
comparison with `matchTriggers` — "match only if the lowercased input begins
with the lowercased trigger … otherwise match if the lowercased input contains
the lowercased trigger"; the spec never trims the input. -/
def matchTriggersSpecWording (input : String) (skills : List Skill) : List Skill :=
  let lowerInput := jsToLower input.data
  skills.filter fun skill => skill.triggers.any (triggerMatches lowerInput)

/-- `SkillLoader.formatSkillSection` (loader.ts:74-98): a `##` header, an
optional `> …` metadata line (triggers first, then a non-empty description),
then a blank line, the body, a blank line; JS truthiness makes an empty
description fall away. -/
def formatSkillSection (skill : Skill) : String :=
  let triggersMeta : List String :=
    if skill.triggers.isEmpty then []
    else ["Triggers: " ++ String.intercalate ", " skill.triggers]
  let descMeta : List String :=
    match skill.description with
    | some d => if d.isEmpty then [] else [d]
    | none => []
  let meta := triggersMeta ++ descMeta
  let metaLine : List String :=
    if meta.isEmpty then [] else ["> " ++ String.intercalate " | " meta]
  String.intercalate "\n"
    (["## " ++ skill.name] ++ metaLine ++ ["", skill.content, ""])

/-- `SkillLoader.buildSkillContext` (loader.ts:52-69): the empty list yields
the empty string; otherwise a fixed preamble followed by one section per
skill, in input order, joined with newlines. -/
def buildSkillContext (skills : List Skill) : String :=
  if skills.isEmpty then ""
  else
    String.intercalate "\n"
      (["", "---", "", "# Active Skills", "",
        "The following skills are available to you. Use them when appropriate based on user requests or trigger patterns.",
        ""] ++ skills.map formatSkillSection)

/-- `SkillRef` in the agent configuration (skills/types.ts re-export of
agent/types). -/
structure SkillRef where
  id : String
  path : String
  enabled : Bool
deriving DecidableEq, Repr

/-- The dedup-and-resolve loop of `SkillLoader.loadForAgent`
(loader.ts:24-42), with the filesystem-backed resolvers
(`discovery.loadSkill` by path, `discovery.getById`) passed as functions. -/
def loadForAgentAux (loadByPath : String → Option Skill)
    (getById : String → Option Skill) :
    List SkillRef → List String → List Skill
  | [], _ => []
  | ref :: rest, loadedIds =>
    if ref.id ∈ loadedIds then loadForAgentAux loadByPath getById rest loadedIds
    else
      match loadByPath ref.path with
      | some skill =>
          skill :: loadForAgentAux loadByPath getById rest (skill.id :: loadedIds)
      | none =>
        match getById ref.id with
        | some skill =>
            skill :: loadForAgentAux loadByPath getById rest (skill.id :: loadedIds)
        | none => loadForAgentAux loadByPath getById rest loadedIds

/-- `SkillLoader.loadForAgent` (loader.ts:19-45): keep only enabled
references, then resolve each (path first, id as fallback), skipping
unresolved references and ids already loaded. -/
def loadForAgent (loadByPath : String → Option Skill)
    (getById : String → Option Skill) (refs : List SkillRef) : List Skill :=
  loadForAgentAux loadByPath getById (refs.filter (·.enabled)) []

/-- The agent's system prompt source (agent config as consumed in
executor.ts:100-114): inline text or a file reference. -/
inductive SystemPromptCfg where
  | inline (content : String)
  | file (path : String)
deriving DecidableEq, Repr

/-- The slice of `AgentConfig` that determines the assembled system prompt
(tool and model settings play no part in it). -/
structure AgentConfig where
  systemPrompt : SystemPromptCfg
  skills : List SkillRef
deriving DecidableEq, Repr

/-- `AgentExecutor.loadSystemPrompt` (executor.ts:100-114): inline content is
returned as is; a file reference is read, and a FAILED read is caught, logged
with `console.error`, and replaced by the empty string — the error does not
propagate. -/
def loadSystemPrompt (sp : SystemPromptCfg)
    (readFile : String → Except String String) : String :=
  match sp with
  | .inline content => content
  | .file path =>
    match readFile path with
    | .ok text => text
    | .error _ => ""

/-- The system prompt after `AgentExecutor.initialize` (executor.ts:66-95):
load the base prompt, then — only when the skill list is non-empty — resolve
skills and, if any were loaded, append `buildSkillContext` to the prompt. -/
def initSystemPrompt (cfg : AgentConfig)
    (readFile : String → Except String String)
    (loadByPath : String → Option Skill)
    (getById : String → Option Skill) : String :=
  let base := loadSystemPrompt cfg.systemPrompt readFile
  if cfg.skills.isEmpty then base
  else
    let loaded := loadForAgent loadByPath getById cfg.skills
    if 0 < loaded.length then base ++ buildSkillContext loaded else base

theorem triggerMatches_iff (l : List Char) (t : String) :
    triggerMatches l t = true ↔
      (("/".data <+: t.data) ∧ jsToLower t.data <+: l) ∨
      (¬ ("/".data <+: t.data) ∧ jsToLower t.data <:+: l) := by
  unfold triggerMatches
  by_cases h : ("/".data) <+: t.data
  · rw [if_pos (List.isPrefixOf_iff_prefix.mpr h)]
    simp [h, List.isPrefixOf_iff_prefix]
  · rw [if_neg (fun hb => h (List.isPrefixOf_iff_prefix.mp hb))]
    simp [h, decide_eq_true_iff]

/-- C4 (amended): `matchTriggers` returns the subset of skills with at least
one matching trigger, in input order, where matching is case-insensitive on
the lowercased AND TRIMMED input: a `/`-marked trigger matches iff the
lowercased trigger is a leading segment of that normalised input, and any
other trigger matches iff it occurs in it as a substring
(discovery.ts:139-155). -/
theorem matchTriggers_characterization (input : String) (skills : List Skill) :
    List.Sublist (matchTriggers input skills) skills ∧
    ∀ s, s ∈ matchTriggers input skills ↔
      s ∈ skills ∧ ∃ t ∈ s.triggers,
        (("/".data <+: t.data) ∧
          jsToLower t.data <+: jsTrim (jsToLower input.data)) ∨
        (¬ ("/".data <+: t.data) ∧
          jsToLower t.data <:+: jsTrim (jsToLower input.data)) := by
  constructor
  · exact List.filter_sublist skills
  · intro s
    rw [matchTriggers, List.mem_filter, List.any_eq_true]
    constructor
    · rintro ⟨hmem, t, ht, hmatch⟩
      exact ⟨hmem, t, ht, (triggerMatches_iff _ t).mp hmatch⟩
    · rintro ⟨hmem, t, ht, hcond⟩
      exact ⟨hmem, t, ht, (triggerMatches_iff _ t).mpr hcond⟩

/-- C4 counterexample: the claim omits the `trim` the code applies. On the
input `" /go"` (leading space) and the single trigger `"/go"`, the lowercased
input does not begin with the lowercased trigger — so by the claim's rule the
skill must not match — yet `matchTriggers` returns the skill, because the
code first trims the input; the untrimmed rule stated by the claim (embodied
by `matchTriggersSpecWording`) returns nothing. -/
theorem matchTriggers_trim_counterexample :
    matchTriggers " /go"
        [⟨"go", "Go", none, ["/go"], "body", "p.md", none, none, []⟩]
      = [⟨"go", "Go", none, ["/go"], "body", "p.md", none, none, []⟩] ∧
    matchTriggersSpecWording " /go"
        [⟨"go", "Go", none, ["/go"], "body", "p.md", none, none, []⟩]
      = [] ∧
    ¬ (jsToLower "/go".data <+: jsToLower " /go".data) := by
  refine ⟨by decide, by decide, by decide⟩

/-- C7: with an empty skill list `buildSkillContext` yields the empty string,
and the system prompt assembled by `initialize` is exactly the raw prompt
text with nothing appended (loader.ts:52-55, executor.ts:84-87). -/
theorem emptySkills_prompt_unchanged (cfg : AgentConfig)
    (readFile : String → Except String String)
    (loadByPath getById : String → Option Skill)
    (h : cfg.skills = []) :
    buildSkillContext [] = "" ∧
    initSystemPrompt cfg readFile loadByPath getById
      = loadSystemPrompt cfg.systemPrompt readFile := by
  refine ⟨rfl, ?_⟩
  simp [initSystemPrompt, h]

theorem emptySkills_prompt_unchanged_witness :
    buildSkillContext [] = "" ∧
    initSystemPrompt ⟨.inline "You are a helpful assistant.", []⟩
        (fun _ => Except.error "io") (fun _ => none) (fun _ => none)
      = loadSystemPrompt (.inline "You are a helpful assistant.")
        (fun _ => Except.error "io") :=
  emptySkills_prompt_unchanged ⟨.inline "You are a helpful assistant.", []⟩
    (fun _ => Except.error "io") (fun _ => none) (fun _ => none) rfl

/-- C1 counterexample: when the system prompt is a file reference whose read
fails, `initialize` does NOT fail with a `ConfigurationError` — the catch in
`loadSystemPrompt` (executor.ts:108-113) logs the error and substitutes the
empty string, so initialization completes with an empty base prompt. (No
`ConfigurationError` exists anywhere in the code.) Here the prompt assembly
of `initialize`, evaluated at a failing reader, succeeds and yields `""`. -/
theorem initialize_swallows_prompt_read_failure :
    initSystemPrompt ⟨.file "/agents/prompt.md", []⟩
        (fun _ => Except.error "ENOENT") (fun _ => none) (fun _ => none)
      = "" := rfl

/-- C1 (amended): if reading the system prompt file fails, the failure is
swallowed — `loadSystemPrompt` returns the empty string and the assembled
prompt of an agent with that file reference (and no skills) is the empty
string; `initialize` completes rather than failing, and in particular an
empty skill list never makes it fail (executor.ts:66-79, 100-114). -/
theorem promptReadFailure_swallowed (p : String)
    (readFile : String → Except String String) (e : String)
    (loadByPath getById : String → Option Skill)
    (h : readFile p = Except.error e) :
    loadSystemPrompt (.file p) readFile = "" ∧
    initSystemPrompt ⟨.file p, []⟩ readFile loadByPath getById = "" := by
  constructor
  · simp [loadSystemPrompt, h]
  · simp [initSystemPrompt, loadSystemPrompt, h]

theorem promptReadFailure_swallowed_witness :
    loadSystemPrompt (.file "/missing.md") (fun _ => Except.error "EACCES") = "" ∧
    initSystemPrompt ⟨.file "/missing.md", []⟩ (fun _ => Except.error "EACCES")
        (fun _ => none) (fun _ => none) = "" :=
  promptReadFailure_swallowed "/missing.md" (fun _ => Except.error "EACCES")
    "EACCES" (fun _ => none) (fun _ => none) rfl

/-!
## Schema adapter (src/.../mcp/converter.ts:10-82)
-/

mutual
/-- A JSON-Schema-like node as `jsonSchemaToZod` consumes it: an optional
`type` tag, an optional `description`, an optional `items` sub-schema, an
optional `properties` map and a `required` list (absent ⇒ `[]`, the
`|| []` default). -/
inductive SchemaNode where
  | mk (ty : Option String) (description : Option String)
      (items : Option SchemaNode) (properties : Option SchemaProps)
      (required : List String) : SchemaNode

/-- The `properties` map of an object schema, in declaration order. -/
inductive SchemaProps where
  | nil : SchemaProps
  | cons (key : String) (node : SchemaNode) (rest : SchemaProps) : SchemaProps
end

/-- The Zod validators `jsonSchemaToZod` can build. `.describe(d)` only
attaches metadata, recorded here as the optional description; `zoptional`
is the `.optional()` wrapper; `zrecordUnknown` is `z.record(z.unknown())`,
the open record; `zunknown` is `z.unknown()`, the accept-anything
validator. -/
inductive ZodType where
  | zstring (description : Option String)
  | znumber (description : Option String)
  | zboolean (description : Option String)
  | zarray (item : ZodType) (description : Option String)
  | zobject (shape : List (String × ZodType))
  | zrecordUnknown
  | zoptional (inner : ZodType)
  | zunknown

/-- JS truthiness of `schema.description`: an absent OR empty description
attaches nothing. -/
def truthyDesc (d : Option String) : Option String :=
  match d with
  | some s => if s.isEmpty then none else some s
  | none => none

mutual
/-- `jsonSchemaToZod` (converter.ts:10-67): dispatch on the declared `type`;
`string`/`number`/`integer`/`boolean` map to the matching primitive
validator, `array` recurses into `items` (absent items ⇒ unknown element),
`object` recurses into `properties` (absent properties ⇒ the open record
`z.record(z.unknown())`), and ANY other type — including an absent one —
falls through to `z.unknown()`. -/
def jsonSchemaToZod : SchemaNode → ZodType
  | .mk ty desc items props required =>
    match ty with
    | some "string" => .zstring (truthyDesc desc)
    | some "number" => .znumber (truthyDesc desc)
    | some "integer" => .znumber (truthyDesc desc)
    | some "boolean" => .zboolean (truthyDesc desc)
    | some "array" =>
      .zarray (match items with
               | some i => jsonSchemaToZod i
               | none => .zunknown) (truthyDesc desc)
    | some "object" =>
      match props with
      | none => .zrecordUnknown
      | some ps => .zobject (convertProps ps required)
    | _ => .zunknown

/-- The property loop of the `object` case (converter.ts:53-60): every
declared property is converted, and wrapped in `.optional()` exactly when its
key is NOT in the `required` list. -/
def convertProps : SchemaProps → List String → List (String × ZodType)
  | .nil, _ => []
  | .cons key node rest, required =>
    (key,
      if key ∈ required then jsonSchemaToZod node
      else .zoptional (jsonSchemaToZod node)) :: convertProps rest required
end

/-- `mcpSchemaToZod` (converter.ts:72-82): the converted schema if it is an
object validator, otherwise the empty object schema `z.object({})`. -/
def mcpSchemaToZod (inputSchema : SchemaNode) : ZodType :=
  match jsonSchemaToZod inputSchema with
  | .zobject shape => .zobject shape
  | _ => .zobject []

/-- The keys of a properties map, in order. -/
def SchemaProps.keys : SchemaProps → List String
  | .nil => []
  | .cons key _ rest => key :: SchemaProps.keys rest

/-- Whether a built validator is the `.optional()` wrapper. -/
def ZodType.isOptionalWrapper : ZodType → Bool
  | .zoptional _ => true
  | _ => false

theorem jsonSchemaToZod_ne_zoptional (n : SchemaNode) (z : ZodType) :
    jsonSchemaToZod n ≠ ZodType.zoptional z := by
  rw [jsonSchemaToZod.eq_def]
  split
  split
  · simp
  · simp
  · simp
  · simp
  · simp
  · split <;> simp
  · simp

theorem isOptionalWrapper_jsonSchemaToZod (n : SchemaNode) :
    (jsonSchemaToZod n).isOptionalWrapper = false := by
  cases h : jsonSchemaToZod n <;>
    first
      | rfl
      | exact absurd h (jsonSchemaToZod_ne_zoptional n _)

theorem convertProps_spec : ∀ (ps : SchemaProps) (required : List String),
    (convertProps ps required).map Prod.fst = ps.keys ∧
    ∀ p ∈ convertProps ps required,
      (p.2.isOptionalWrapper = true ↔ p.1 ∉ required)
  | .nil, required => by simp [convertProps, SchemaProps.keys]
  | .cons key node rest, required => by
    obtain ⟨ih1, ih2⟩ := convertProps_spec rest required
    constructor
    · simp [convertProps, SchemaProps.keys, ih1]
    · intro p hp
      simp only [convertProps, List.mem_cons] at hp
      rcases hp with rfl | hp
      · by_cases hk : key ∈ required
        · simp [hk, isOptionalWrapper_jsonSchemaToZod]
        · simp [hk, ZodType.isOptionalWrapper]
      · exact ih2 p hp

/-- C8: the schema adapter never rejects a capability — a node whose declared
type is outside `{string, number, integer, boolean, array, object}` (or
absent) converts to the accept-anything validator; an object node with no
declared properties converts to the open record `z.record(z.unknown())`
accepting arbitrary named fields; and within an object node every declared
property is converted, as required exactly when it is listed in the node's
`required` list and wrapped `.optional()` otherwise (converter.ts:10-67). -/
theorem jsonSchemaToZod_degrades_gracefully :
    (∀ (ty desc : Option String) (items : Option SchemaNode)
        (props : Option SchemaProps) (required : List String),
      (ty = none ∨ ∃ s, ty = some s ∧
          s ∉ ["string", "number", "integer", "boolean", "array", "object"]) →
      jsonSchemaToZod (.mk ty desc items props required) = .zunknown) ∧
    (∀ (desc : Option String) (items : Option SchemaNode)
        (required : List String),
      jsonSchemaToZod (.mk (some "object") desc items none required)
        = .zrecordUnknown) ∧
    (∀ (ps : SchemaProps) (required : List String),
      (convertProps ps required).map Prod.fst = ps.keys ∧
      ∀ p ∈ convertProps ps required,
        (p.2.isOptionalWrapper = true ↔ p.1 ∉ required)) := by
  refine ⟨?_, ?_, ?_⟩
  · rintro ty desc items props required (rfl | ⟨s, rfl, hs⟩)
    · simp [jsonSchemaToZod]
    · simp only [List.mem_cons, List.not_mem_nil, or_false] at hs
      push_neg at hs
      obtain ⟨h1, h2, h3, h4, h5, h6⟩ := hs
      simp [jsonSchemaToZod, h1, h2, h3, h4, h5, h6]
  · intro desc items required
    simp [jsonSchemaToZod]
  · exact fun ps required => convertProps_spec ps required

theorem jsonSchemaToZod_degrades_gracefully_witness :
    jsonSchemaToZod (.mk (some "date-time") none none none []) = .zunknown ∧
    jsonSchemaToZod (.mk (some "object") none none none ["x"]) = .zrecordUnknown ∧
    (convertProps
        (.cons "a" (.mk (some "string") none none none [])
          (.cons "b" (.mk (some "number") none none none []) .nil))
        ["a"]).map Prod.fst = ["a", "b"] :=
  ⟨jsonSchemaToZod_degrades_gracefully.1 (some "date-time") none none none []
      (Or.inr ⟨"date-time", rfl, by decide⟩),
   jsonSchemaToZod_degrades_gracefully.2.1 none none ["x"],
   ((jsonSchemaToZod_degrades_gracefully.2.2
      (.cons "a" (.mk (some "string") none none none [])
        (.cons "b" (.mk (some "number") none none none []) .nil))
      ["a"]).1).trans rfl⟩

/-!
## Executor streaming turn (src/.../agent/executor.ts:241-306)

The model round-trip loop itself lives in the external `ai` SDK's
`streamText`, configured with `maxSteps := config.settings.maxToolCalls`
(executor.ts:253); the executor only re-emits what the SDK produces.
-/

/-- The `FinishReason` union of the external `ai` SDK, as imported by
executor.ts; `render` is the literal wire string of each value. The
executor forwards `finalResult.finishReason ?? "stop"` verbatim into its
final chunk (executor.ts:295-299). -/
inductive FinishReason where
  | stop
  | length
  | contentFilter
  | toolCalls
  | error
  | other
  | unknown
deriving DecidableEq, Repr

/-- The wire string of each SDK finish reason. -/
def FinishReason.render : FinishReason → String
  | .stop => "stop"
  | .length => "length"
  | .contentFilter => "content-filter"
  | .toolCalls => "tool-calls"
  | .error => "error"
  | .other => "other"
  | .unknown => "unknown"

/-- `ToolCall` (executor.ts:20-24); the argument bag is modelled as an
association list. -/
structure ToolCall where
  id : String
  toolName : String
  args : List (String × String)
deriving DecidableEq, Repr

/-- `ToolResult` (executor.ts:26-30). -/
structure ToolResult where
  toolCallId : String
  toolName : String
  result : String
deriving DecidableEq, Repr

/-- What one SDK step produces: streamed text fragments, the tool calls the
model requested (executed by the SDK within the step), their results, and
the step's finish reason. -/
structure StepResult where
  textDeltas : List String
  toolCalls : List ToolCall
  toolResults : List ToolResult
  finish : FinishReason
deriving DecidableEq, Repr

/-- `StreamChunk` (executor.ts:33-39), the executor's tagged event variants. -/
inductive StreamChunk where
  | textDelta (content : String)
  | toolCallStart (toolCall : ToolCall)
  | toolCallEnd (toolCallId : String) (result : String)
  | messageStart (id : String)
  | messageEnd (id : String) (finishReason : String)
  | error (error : String)
deriving DecidableEq, Repr

/-- Modelled from the spec: the multi-step model loop of the external
`streamText` dependency (spec §4.1 — "the loop terminates when the model
returns a finish reason other than more-tool-calls-requested, or when the
configured step budget (maxToolCalls) is reached, whichever comes first").
The behaviour of the model at each step is a parameter; a step is taken,
and the loop continues exactly when that step finished with `toolCalls`
and budget remains. -/
def runSteps (model : Nat → StepResult) : Nat → Nat → List StepResult
  | 0, _ => []
  | fuel + 1, i =>
    let s := model i
    if s.finish = FinishReason.toolCalls then s :: runSteps model fuel (i + 1)
    else [s]

/-- The awaited final result of `streamText`: the last step (its finish
reason, tool calls and tool results are what `finalResult` exposes); the
`?? "stop"` default of executor.ts:298 covers the no-step edge. -/
def lastStep (steps : List StepResult) : StepResult :=
  steps.getLast?.getD ⟨[], [], [], .stop⟩

/-- `AgentExecutor.stream` (executor.ts:241-306) on the non-throwing path:
a `message_start`, every text delta of the whole stream, a
`tool_call_start` per tool call of the final result, a `tool_call_end` per
tool result of the final result, and a closing `message_end` carrying the
SDK finish reason; `error` chunks arise only from a thrown exception
(executor.ts:300-305). -/
def streamEvents (model : Nat → StepResult) (maxToolCalls : Nat)
    (msgId : String) : List StreamChunk :=
  let steps := runSteps model maxToolCalls 0
  let final := lastStep steps
  [StreamChunk.messageStart msgId]
    ++ (steps.flatMap (fun s => s.textDeltas)).map StreamChunk.textDelta
    ++ final.toolCalls.map StreamChunk.toolCallStart
    ++ final.toolResults.map (fun r => StreamChunk.toolCallEnd r.toolCallId r.result)
    ++ [StreamChunk.messageEnd msgId final.finish.render]

theorem getLast_append_singleton {α : Type} (l : List α) (a : α) :
    (l ++ [a]).getLast? = some a := by
  induction l with
  | nil => rfl
  | cons x xs ih =>
    rw [List.cons_append, List.getLast?_cons, ih]
    rfl

/-- C5 (amended): with `maxToolCalls = 1` and a model that requests another
tool call at every step, exactly one step runs (a second tool call is never
attempted), the stream carries exactly one `tool_call_start`/`tool_call_end`
pair, no `error` chunk is emitted, and the stream ends with a `message_end`
whose finish reason is the SDK's `"tool-calls"` — the finish reason the loop
reports when the step budget stops it; the code has no distinct
`"step-limit"` reason. -/
theorem stepLimit_one_toolcall (model : Nat → StepResult) (msgId : String)
    (tc : ToolCall) (tr : ToolResult)
    (hfin : ∀ i, (model i).finish = FinishReason.toolCalls)
    (hc : (model 0).toolCalls = [tc]) (hr : (model 0).toolResults = [tr]) :
    runSteps model 1 0 = [model 0] ∧
    streamEvents model 1 msgId
      = [StreamChunk.messageStart msgId]
        ++ ((model 0).textDeltas).map StreamChunk.textDelta
        ++ [StreamChunk.toolCallStart tc,
            StreamChunk.toolCallEnd tr.toolCallId tr.result,
            StreamChunk.messageEnd msgId "tool-calls"] ∧
    (∀ e ∈ streamEvents model 1 msgId, ∀ s, e ≠ StreamChunk.error s) ∧
    (streamEvents model 1 msgId).getLast?
      = some (StreamChunk.messageEnd msgId "tool-calls") := by
  have hrun : runSteps model 1 0 = [model 0] := by
    simp [runSteps, hfin 0]
  have hlast : lastStep [model 0] = model 0 := by
    simp [lastStep]
  have hev : streamEvents model 1 msgId
      = [StreamChunk.messageStart msgId]
        ++ ((model 0).textDeltas).map StreamChunk.textDelta
        ++ [StreamChunk.toolCallStart tc,
            StreamChunk.toolCallEnd tr.toolCallId tr.result,
            StreamChunk.messageEnd msgId "tool-calls"] := by
    simp [streamEvents, hrun, hlast, hc, hr, hfin 0, FinishReason.render]
  refine ⟨hrun, hev, ?_, ?_⟩
  · intro e he s
    rw [hev] at he
    simp only [List.cons_append, List.nil_append, List.mem_cons,
      List.mem_append, List.mem_map] at he
    rcases he with rfl | he | he
    · simp
    · obtain ⟨c, _, rfl⟩ := he
      simp
    · rcases he with rfl | rfl | rfl | h
      · simp
      · simp
      · simp
      · simp at h
  · rw [hev]
    have h1 : [StreamChunk.messageStart msgId]
        ++ ((model 0).textDeltas).map StreamChunk.textDelta
        ++ [StreamChunk.toolCallStart tc,
            StreamChunk.toolCallEnd tr.toolCallId tr.result,
            StreamChunk.messageEnd msgId "tool-calls"]
      = (StreamChunk.messageStart msgId
          :: (((model 0).textDeltas).map StreamChunk.textDelta
            ++ [StreamChunk.toolCallStart tc,
                StreamChunk.toolCallEnd tr.toolCallId tr.result]))
        ++ [StreamChunk.messageEnd msgId "tool-calls"] := by simp
    rw [h1, getLast_append_singleton]

theorem stepLimit_one_toolcall_witness :
    runSteps
        (fun _ => ⟨["calling."], [⟨"call-1", "ping", []⟩],
          [⟨"call-1", "ping", "pong"⟩], FinishReason.toolCalls⟩) 1 0
      = [⟨["calling."], [⟨"call-1", "ping", []⟩],
          [⟨"call-1", "ping", "pong"⟩], FinishReason.toolCalls⟩] ∧
    streamEvents
        (fun _ => ⟨["calling."], [⟨"call-1", "ping", []⟩],
          [⟨"call-1", "ping", "pong"⟩], FinishReason.toolCalls⟩) 1 "m"
      = [StreamChunk.messageStart "m"]
        ++ [StreamChunk.textDelta "calling."]
        ++ [StreamChunk.toolCallStart ⟨"call-1", "ping", []⟩,
            StreamChunk.toolCallEnd "call-1" "pong",
            StreamChunk.messageEnd "m" "tool-calls"] ∧
    (∀ e ∈ streamEvents
        (fun _ => ⟨["calling."], [⟨"call-1", "ping", []⟩],
          [⟨"call-1", "ping", "pong"⟩], FinishReason.toolCalls⟩) 1 "m",
      ∀ s, e ≠ StreamChunk.error s) ∧
    (streamEvents
        (fun _ => ⟨["calling."], [⟨"call-1", "ping", []⟩],
          [⟨"call-1", "ping", "pong"⟩], FinishReason.toolCalls⟩) 1 "m").getLast?
      = some (StreamChunk.messageEnd "m" "tool-calls") :=
  stepLimit_one_toolcall
    (fun _ => ⟨["calling."], [⟨"call-1", "ping", []⟩],
      [⟨"call-1", "ping", "pong"⟩], FinishReason.toolCalls⟩) "m"
    ⟨"call-1", "ping", []⟩ ⟨"call-1", "ping", "pong"⟩
    (fun _ => rfl) rfl rfl

/-- C5 counterexample: at `maxToolCalls = 1` with a model that always
requests another tool call, the emitted stream does contain exactly one
`tool_call_start`/`tool_call_end` pair and no error chunk, but its final
event's reason is the SDK string `"tool-calls"` — there is no `"step-limit"`
reason anywhere in the code, so the claim's required terminal
`turn-finished{reason: step-limit}` event never occurs. -/
theorem stepLimit_reason_is_tool_calls :
    streamEvents
        (fun _ => ⟨[], [⟨"call-1", "ping", []⟩],
          [⟨"call-1", "ping", "pong"⟩], FinishReason.toolCalls⟩) 1 "m"
      = [StreamChunk.messageStart "m",
         StreamChunk.toolCallStart ⟨"call-1", "ping", []⟩,
         StreamChunk.toolCallEnd "call-1" "pong",
         StreamChunk.messageEnd "m" "tool-calls"] ∧
    "tool-calls" ≠ "step-limit" :=
  ⟨rfl, by decide⟩
